import Mathlib

/-!
Verification of the conrod glow renderer core (src/conrod_glow.rs).

The batching state machine of `Renderer::fill` is embedded as a fold over the
primitive stream.  Machine scalars are modelled as follows: `u32` values
become `Nat` (with explicit saturation where a float is cast to `u32`),
`f64`/`f32` coordinate arithmetic becomes exact rational arithmetic, and the
sRGB gamma conversion, whose defining formula uses a real power `x ^ 2.4`, is
modelled over the reals in `gamma_srgb_to_linear`.  Vertex colors inside the
batcher are kept symbolic via `VColor` so that the batcher itself stays
executable: `VColor.linear c` records that `gamma_srgb_to_linear` was applied
to the fsa color `c`, `VColor.raw c` records that `c` was stored unconverted
(the code converts everywhere except in the `Image` arm).
-/

namespace ConrodGlow

abbrev Q2 := ℚ × ℚ

abbrev Q4 := ℚ × ℚ × ℚ × ℚ

/-- Pixel-space scissor rectangle, `GlRect` in the source (`u32` fields). -/
structure GlRect where
  left : ℕ
  bottom : ℕ
  width : ℕ
  height : ℕ
deriving DecidableEq

/-- Symbolic vertex color: `linear c` stands for `gamma_srgb_to_linear(c)`;
`raw c` stands for `c` stored without conversion (the `Image` arm). -/
inductive VColor where
  | linear (srgb : Q4)
  | raw (c : Q4)
deriving DecidableEq

/-- The `Vertex` type pushed into the frame vertex array. -/
structure Vertex where
  mode : ℕ
  position : Q2
  tex_coords : Q2
  color : VColor
deriving DecidableEq

def MODE_TEXT : ℕ := 0

def MODE_IMAGE : ℕ := 1

def MODE_GEOMETRY : ℕ := 2

/-- Models the external `conrod_core::Rect` through the accessors `fill`
uses: `l_r_b_t`, `w_h = (r - l, t - b)`, `left` and `bottom`. -/
structure Rect where
  l : ℚ
  r : ℚ
  b : ℚ
  t : ℚ
deriving DecidableEq

def Rect.left (rc : Rect) : ℚ := rc.l

def Rect.bottom (rc : Rect) : ℚ := rc.b

def Rect.w_h (rc : Rect) : Q2 := (rc.r - rc.l, rc.t - rc.b)

/-- Models `text::rt::Rect<i32>`: the pixel-space glyph rectangle a glyph
cache lookup returns. -/
structure IRect where
  min_x : ℤ
  min_y : ℤ
  max_x : ℤ
  max_y : ℤ
deriving DecidableEq

/-- Models `text::rt::Rect<f32>`: the texture-space uv rectangle a glyph
cache lookup returns. -/
structure QRect where
  min_x : ℚ
  min_y : ℚ
  max_x : ℚ
  max_y : ℚ
deriving DecidableEq

/-- One `([Scalar; 2], color::Rgba)` vertex of a multi-color triangle. -/
structure ColoredPoint where
  pos : Q2
  rgba : Q4
deriving DecidableEq

/-- The primitive kinds consumed by `Renderer::fill`.  Text primitives carry,
for each positioned glyph, the result of the external glyph cache lookup
`rect_for` (`none` models a cache miss, `some (uv, screen)` a placement);
the cache itself is an external collaborator. -/
inductive PrimitiveKind where
  | Rectangle (color : Q4)
  | TrianglesSingleColor (color : Q4) (triangles : List (Q2 × Q2 × Q2))
  | TrianglesMultiColor (triangles : List (ColoredPoint × ColoredPoint × ColoredPoint))
  | Text (color : Q4) (glyphs : List (Option (QRect × IRect)))
  | Image (image_id : ℕ) (color : Option Q4) (source_rect : Option Rect)
  | Other
deriving DecidableEq

/-- One element of the primitive stream: kind, clip rectangle, bounding
rectangle. -/
structure Primitive where
  kind : PrimitiveKind
  scizzor : Rect
  rect : Rect
deriving DecidableEq

/-- `PreparedCommand` from the source; vertex ranges are `start..stop`. -/
inductive PreparedCommand where
  | Image (image_id : ℕ) (start stop : ℕ)
  | Plain (start stop : ℕ)
  | Scizzor (r : GlRect)
deriving DecidableEq

/-- The local `State` enum of `Renderer::fill`. -/
inductive DrawState where
  | Image (image_id : ℕ) (start : ℕ)
  | Plain (start : ℕ)
deriving DecidableEq

def DrawState.start : DrawState → ℕ
  | .Image _ s => s
  | .Plain s => s

/-- Inputs `fill` reads from its collaborators: framebuffer dimensions,
hidpi factor and the image table (`image::Map`, modelled by its lookup:
id to optional (width, height)). -/
structure FillEnv where
  screen_w : ℕ
  screen_h : ℕ
  dpi_factor : ℚ
  image_map : ℕ → Option (ℕ × ℕ)

/-- `vx`: conrod scalar x coordinate to GL coordinate. -/
def vxE (env : FillEnv) (x : ℚ) : ℚ := x * env.dpi_factor / ((env.screen_w : ℚ) / 2)

/-- `vy`: conrod scalar y coordinate to GL coordinate. -/
def vyE (env : FillEnv) (y : ℚ) : ℚ := y * env.dpi_factor / ((env.screen_h : ℚ) / 2)

/-- `f64::round`: round half away from zero. -/
def rustRound (q : ℚ) : ℤ := if 0 ≤ q then ⌊q + 1 / 2⌋ else -⌊-q + 1 / 2⌋

/-- A float `as u32` cast: saturating at 0 below and `u32::MAX` above. -/
def asU32 (z : ℤ) : ℕ := min z.toNat (2 ^ 32 - 1)

/-- The `rect_to_gl_rect` closure of `Renderer::fill`. -/
def rect_to_gl_rect (env : FillEnv) (rc : Rect) : GlRect :=
  let wh := rc.w_h
  let left := asU32 (rustRound (rc.left * env.dpi_factor + (env.screen_w : ℚ) / 2))
  let bottom := asU32 (rustRound (rc.bottom * env.dpi_factor + (env.screen_h : ℚ) / 2))
  let width := asU32 (rustRound (wh.1 * env.dpi_factor))
  let height := asU32 (rustRound (wh.2 * env.dpi_factor))
  { left := max left 0
    bottom := max bottom 0
    width := min width env.screen_w
    height := min height env.screen_h }

/-- The clip mapping as the spec words it: every component clamped into
`[0, W]` respectively `[0, H]`.  Used to compare `rect_to_gl_rect` against
the spec sentence of claim C4. -/
def specGlRect (env : FillEnv) (rc : Rect) : GlRect :=
  let wh := rc.w_h
  { left := min (asU32 (rustRound (rc.left * env.dpi_factor + (env.screen_w : ℚ) / 2))) env.screen_w
    bottom := min (asU32 (rustRound (rc.bottom * env.dpi_factor + (env.screen_h : ℚ) / 2))) env.screen_h
    width := min (asU32 (rustRound (wh.1 * env.dpi_factor))) env.screen_w
    height := min (asU32 (rustRound (wh.2 * env.dpi_factor))) env.screen_h }

/-- `color::WHITE.to_fsa()`. -/
def WHITE : Q4 := (1, 1, 1, 1)

/-- Mutable loop state of `Renderer::fill`: the command list, the vertex
array, the draw state and the active scissor rectangle. -/
structure FillState where
  commands : List PreparedCommand
  vertices : List Vertex
  current_state : DrawState
  current_scizzor : GlRect
deriving DecidableEq

/-- Closing the in-flight draw state into a command ending at `len`. -/
def closeCommand : DrawState → ℕ → PreparedCommand
  | .Image id s, len => .Image id s len
  | .Plain s, len => .Plain s len

/-- The scissor check at the top of the per-primitive loop body. -/
def scissorCheck (env : FillEnv) (st : FillState) (p : Primitive) : FillState :=
  let new_scizzor := rect_to_gl_rect env p.scizzor
  if new_scizzor ≠ st.current_scizzor then
    { commands := st.commands ++
        [closeCommand st.current_state st.vertices.length, .Scizzor new_scizzor]
      vertices := st.vertices
      current_state := .Plain st.vertices.length
      current_scizzor := new_scizzor }
  else st

/-- The `switch_to_plain_state!` macro. -/
def switchToPlain (st : FillState) : FillState :=
  match st.current_state with
  | .Plain _ => st
  | .Image id s =>
    { st with
      commands := st.commands ++ [.Image id s st.vertices.length]
      current_state := .Plain st.vertices.length }

/-- The state-switch `match` at the head of the `Image` arm. -/
def imageSwitch (st : FillState) (new_image_id : ℕ) : FillState :=
  match st.current_state with
  | .Image image_id s =>
    if image_id = new_image_id then st
    else
      { st with
        commands := st.commands ++ [.Image image_id s st.vertices.length]
        current_state := .Image new_image_id st.vertices.length }
  | .Plain s =>
    { st with
      commands := st.commands ++ [.Plain s st.vertices.length]
      current_state := .Image new_image_id st.vertices.length }

def pushVertices (st : FillState) (vs : List Vertex) : FillState :=
  { st with vertices := st.vertices ++ vs }

/-- The six vertices pushed by the `Rectangle` arm. -/
def rectVertices (env : FillEnv) (color : Q4) (rc : Rect) : List Vertex :=
  let c := VColor.linear color
  let v : ℚ → ℚ → Vertex := fun x y =>
    { mode := MODE_GEOMETRY, position := (vxE env x, vyE env y), tex_coords := (0, 0), color := c }
  [v rc.l rc.t, v rc.r rc.b, v rc.l rc.b, v rc.l rc.t, v rc.r rc.b, v rc.r rc.t]

/-- The vertices pushed by the `TrianglesSingleColor` arm. -/
def trianglesSingleVertices (env : FillEnv) (color : Q4) (tris : List (Q2 × Q2 × Q2)) :
    List Vertex :=
  let c := VColor.linear color
  let v : Q2 → Vertex := fun p =>
    { mode := MODE_GEOMETRY, position := (vxE env p.1, vyE env p.2), tex_coords := (0, 0),
      color := c }
  tris.flatMap fun tr => [v tr.1, v tr.2.1, v tr.2.2]

/-- The vertices pushed by the `TrianglesMultiColor` arm (per-vertex color
conversion). -/
def trianglesMultiVertices (env : FillEnv)
    (tris : List (ColoredPoint × ColoredPoint × ColoredPoint)) : List Vertex :=
  let v : ColoredPoint → Vertex := fun pc =>
    { mode := MODE_GEOMETRY, position := (vxE env pc.pos.1, vyE env pc.pos.2),
      tex_coords := (0, 0), color := VColor.linear pc.rgba }
  tris.flatMap fun tr => [v tr.1, v tr.2.1, v tr.2.2]

/-- The `to_gl_rect` closure of the `Text` arm applied to a glyph screen
rectangle: both corners mapped to GL coordinates. -/
def textGlCorner (env : FillEnv) (x y : ℤ) : Q2 :=
  (((x : ℚ) / (env.screen_w : ℚ) - 1 / 2) * 2,
   (1 - (y : ℚ) / (env.screen_h : ℚ) - 1 / 2) * 2)

/-- The six vertices pushed for one placed glyph. -/
def glyphQuad (env : FillEnv) (color : Q4) (uv : QRect) (sr : IRect) : List Vertex :=
  let c := VColor.linear color
  let gmin := textGlCorner env sr.min_x sr.min_y
  let gmax := textGlCorner env sr.max_x sr.max_y
  let v : Q2 → Q2 → Vertex := fun p t =>
    { mode := MODE_TEXT, position := p, tex_coords := t, color := c }
  [v (gmin.1, gmax.2) (uv.min_x, uv.max_y),
   v (gmin.1, gmin.2) (uv.min_x, uv.min_y),
   v (gmax.1, gmin.2) (uv.max_x, uv.min_y),
   v (gmax.1, gmin.2) (uv.max_x, uv.min_y),
   v (gmax.1, gmax.2) (uv.max_x, uv.max_y),
   v (gmin.1, gmax.2) (uv.min_x, uv.max_y)]

/-- The vertices pushed by the `Text` arm: one quad per glyph with a cache
placement, nothing for a cache miss. -/
def textVertices (env : FillEnv) (color : Q4) (glyphs : List (Option (QRect × IRect))) :
    List Vertex :=
  glyphs.flatMap fun g =>
    match g with
    | some (uv, sr) => glyphQuad env color uv sr
    | none => []

/-- The six vertices pushed by the `Image` arm when the image id is present
in the image table (uv coordinates from the optional source rectangle,
defaulting to the full texture; the color is stored unconverted). -/
def imageVertices (env : FillEnv) (color : Q4) (image_w image_h : ℕ)
    (source_rect : Option Rect) (rc : Rect) : List Vertex :=
  let uv : ℚ × ℚ × ℚ × ℚ :=
    match source_rect with
    | some src => (src.l / (image_w : ℚ), src.r / (image_w : ℚ),
                   src.b / (image_h : ℚ), src.t / (image_h : ℚ))
    | none => (0, 1, 0, 1)
  let v : ℚ → ℚ → Q2 → Vertex := fun x y t =>
    { mode := MODE_IMAGE
      position := (x * env.dpi_factor / ((env.screen_w : ℚ) / 2),
                   y * env.dpi_factor / ((env.screen_h : ℚ) / 2))
      tex_coords := t
      color := VColor.raw color }
  [v rc.l rc.t (uv.1, uv.2.2.2), v rc.r rc.b (uv.2.1, uv.2.2.1), v rc.l rc.b (uv.1, uv.2.2.1),
   v rc.l rc.t (uv.1, uv.2.2.2), v rc.r rc.b (uv.2.1, uv.2.2.1), v rc.r rc.t (uv.2.1, uv.2.2.2)]

/-- One iteration of the `while let` loop of `Renderer::fill`. -/
def fillStep (env : FillEnv) (st : FillState) (p : Primitive) : FillState :=
  let st := scissorCheck env st p
  match p.kind with
  | .Rectangle color =>
    pushVertices (switchToPlain st) (rectVertices env color p.rect)
  | .TrianglesSingleColor color tris =>
    if tris.isEmpty then st
    else pushVertices (switchToPlain st) (trianglesSingleVertices env color tris)
  | .TrianglesMultiColor tris =>
    if tris.isEmpty then st
    else pushVertices (switchToPlain st) (trianglesMultiVertices env tris)
  | .Text color glyphs =>
    pushVertices (switchToPlain st) (textVertices env color glyphs)
  | .Image image_id color source_rect =>
    let st := imageSwitch st image_id
    match env.image_map image_id with
    | some wh => pushVertices st (imageVertices env (color.getD WHITE) wh.1 wh.2 source_rect p.rect)
    | none => st
  | .Other => st

def fillLoop (env : FillEnv) (st : FillState) : List Primitive → FillState
  | [] => st
  | p :: ps => fillLoop env (fillStep env st p) ps

/-- The scissor rectangle active at frame start: the full framebuffer. -/
def initScizzor (env : FillEnv) : GlRect :=
  { left := 0, bottom := 0, width := env.screen_w, height := env.screen_h }

/-- Loop state at the top of `Renderer::fill`: cleared buffers, `Plain`
draw state starting at 0, full-framebuffer scissor. -/
def initFillState (env : FillEnv) : FillState :=
  { commands := [], vertices := [], current_state := .Plain 0,
    current_scizzor := initScizzor env }

/-- The final command pushed after the stream is exhausted. -/
def finishFill (st : FillState) : FillState :=
  { st with commands := st.commands ++ [closeCommand st.current_state st.vertices.length] }

/-- `Renderer::fill`: run the batcher over the whole primitive stream. -/
def fill (env : FillEnv) (prims : List Primitive) : FillState :=
  finishFill (fillLoop env (initFillState env) prims)

/-- The `(start, stop)` vertex ranges of the `Plain` and `Image` commands,
in command order (`Scizzor` commands carry no range). -/
def drawRanges : List PreparedCommand → List (ℕ × ℕ)
  | [] => []
  | .Image _ s e :: cs => (s, e) :: drawRanges cs
  | .Plain s e :: cs => (s, e) :: drawRanges cs
  | .Scizzor _ :: cs => drawRanges cs

/-- The rectangles of the `Scizzor` commands, in command order. -/
def scizzorsOf : List PreparedCommand → List GlRect
  | [] => []
  | .Scizzor r :: cs => r :: scizzorsOf cs
  | .Image _ _ _ :: cs => scizzorsOf cs
  | .Plain _ _ :: cs => scizzorsOf cs

/-- `chainB a rs b` checks that the ranges `rs` tile the interval from `a`
to `b` gaplessly and in order: each range starts where the previous one
stopped, starts never exceed stops, and the last stop is `b`. -/
def chainB : ℕ → List (ℕ × ℕ) → ℕ → Bool
  | a, [], b => a == b
  | a, (s, e) :: rs, b => s == a && decide (a ≤ e) && chainB e rs b

/-- Concatenation of the vertex index ranges. -/
def joinRanges : List (ℕ × ℕ) → List ℕ
  | [] => []
  | (s, e) :: rs => List.range' s (e - s) ++ joinRanges rs

/-- Every range length is a multiple of 3. -/
def mult3B (rs : List (ℕ × ℕ)) : Bool := rs.all fun r => (r.2 - r.1) % 3 == 0

def isDrawB : PreparedCommand → Bool
  | .Plain _ _ => true
  | .Image _ _ _ => true
  | .Scizzor _ => false

def lastIsDrawB (cs : List PreparedCommand) : Bool :=
  match cs.getLast? with
  | some c => isDrawB c
  | none => false

def scizzorNotFirstB : List PreparedCommand → Bool
  | [] => true
  | c :: _ => isDrawB c

/-- Adjacent-pair checker: `chkPairs f prev cs` holds when `f` holds of
every adjacent pair of `prev ++ cs`. -/
def chkPairs (f : PreparedCommand → PreparedCommand → Bool) :
    Option PreparedCommand → List PreparedCommand → Bool
  | _, [] => true
  | prev, c :: cs =>
    (match prev with
     | some p => f p c
     | none => true) && chkPairs f (some c) cs

/-- The last command of `prev ++ cs` (as an option). -/
def lastOpt : Option PreparedCommand → List PreparedCommand → Option PreparedCommand
  | prev, [] => prev
  | _, c :: cs => lastOpt (some c) cs

/-- Pair constraint: a `Scizzor` command is immediately preceded by a draw
command. -/
def drawBeforeScizzorP (c1 c2 : PreparedCommand) : Bool :=
  match c2 with
  | .Scizzor _ => isDrawB c1
  | .Image _ _ _ => true
  | .Plain _ _ => true

/-- Pair constraint: the command immediately after a `Scizzor` is `Plain`. -/
def plainAfterScizzorP (c1 c2 : PreparedCommand) : Bool :=
  match c1 with
  | .Scizzor _ =>
    match c2 with
    | .Plain _ _ => true
    | .Image _ _ _ => false
    | .Scizzor _ => false
  | .Image _ _ _ => true
  | .Plain _ _ => true

/-- Pair constraint: two adjacent `Image` commands have distinct ids. -/
def distinctImagesP (c1 c2 : PreparedCommand) : Bool :=
  match c1, c2 with
  | .Image i _ _, .Image j _ _ => !(i == j)
  | _, _ => true

/-- Spec-side scissor trace: the rectangles a frame emits, one whenever a
mapped clip rectangle differs from the active one, the active rectangle
starting at the given value and updating at each change. -/
def scissorChanges (env : FillEnv) : GlRect → List Primitive → List GlRect
  | _, [] => []
  | cur, p :: ps =>
    let n := rect_to_gl_rect env p.scizzor
    if n ≠ cur then n :: scissorChanges env n ps else scissorChanges env cur ps

/-- Every `Image` command whose id is absent from the image table has an
empty vertex range. -/
def absentImagesEmptyB (env : FillEnv) (cs : List PreparedCommand) : Bool :=
  cs.all fun c =>
    match c with
    | .Image id s e => (env.image_map id).isSome || s == e
    | .Plain _ _ => true
    | .Scizzor _ => true

/-- Invariant carried through the per-primitive loop of `fill`. -/
structure Inv (env : FillEnv) (st : FillState) : Prop where
  chain : chainB 0 (drawRanges st.commands) st.current_state.start = true
  startLe : st.current_state.start ≤ st.vertices.length
  mod3 : mult3B (drawRanges st.commands) = true
  mod3cur : (st.vertices.length - st.current_state.start) % 3 = 0
  notFirst : scizzorNotFirstB st.commands = true
  noTwoSciz : chkPairs drawBeforeScizzorP none st.commands = true
  postPlain : chkPairs plainAfterScizzorP none st.commands = true
  noAdjImg : chkPairs distinctImagesP none st.commands = true
  lastSciz : ∀ r, lastOpt none st.commands = some (.Scizzor r) →
    ∃ s, st.current_state = .Plain s
  lastImg : ∀ id s e, lastOpt none st.commands = some (.Image id s e) →
    ∀ s2, st.current_state ≠ .Image id s2
  absentOk : absentImagesEmptyB env st.commands = true
  curAbsent : ∀ id s, st.current_state = .Image id s → env.image_map id = none →
    s = st.vertices.length

/-- sRGB-to-linear conversion of one channel, modelling the inner
`component` closure of `gamma_srgb_to_linear` over the reals. -/
noncomputable def srgbComponent (f : ℝ) : ℝ :=
  if f ≤ 0.04045 then f / 12.92 else ((f + 0.055) / 1.055) ^ (2.4 : ℝ)

/-- `gamma_srgb_to_linear`: the three RGB channels pass through the
transfer function, the alpha channel is returned unchanged. -/
noncomputable def gamma_srgb_to_linear (c : ℝ × ℝ × ℝ × ℝ) : ℝ × ℝ × ℝ × ℝ :=
  (srgbComponent c.1, srgbComponent c.2.1, srgbComponent c.2.2.1, c.2.2.2)

/-- Real-valued meaning of a symbolic batcher color. -/
noncomputable def VColor.interp : VColor → ℝ × ℝ × ℝ × ℝ
  | .linear c => gamma_srgb_to_linear ((c.1 : ℝ), (c.2.1 : ℝ), (c.2.2.1 : ℝ), (c.2.2.2 : ℝ))
  | .raw c => ((c.1 : ℝ), (c.2.1 : ℝ), (c.2.2.1 : ℝ), (c.2.2.2 : ℝ))

/-! Concrete inputs used by counterexamples and witnesses. -/

/-- An 800 by 600 framebuffer at scale 1 with an empty image table. -/
def envNone : FillEnv :=
  { screen_w := 800, screen_h := 600, dpi_factor := 1, image_map := fun _ => none }

/-- Same framebuffer, image table holding only id 7 (a 16 by 16 texture). -/
def envSome7 : FillEnv :=
  { screen_w := 800, screen_h := 600, dpi_factor := 1,
    image_map := fun i => if i = 7 then some (16, 16) else none }

/-- Logical rectangle mapping to the full 800 by 600 framebuffer. -/
def fullRect : Rect := { l := -400, r := 400, b := -300, t := 300 }

/-- Logical rectangle mapping to the top right quadrant. -/
def halfRect : Rect := { l := 0, r := 400, b := 0, t := 300 }

/-- Logical rectangle whose left edge lies past the right framebuffer
border. -/
def farRect : Rect := { l := 800, r := 810, b := 0, t := 10 }

def blackQ : Q4 := (0, 0, 0, 1)

/-- An `Image` primitive with id 99 (absent from `envNone.image_map`). -/
def primImage99 : Primitive :=
  { kind := .Image 99 none none, scizzor := fullRect,
    rect := { l := 0, r := 10, b := 0, t := 10 } }

/-- An `Image` primitive with id 7 and a clip mapping to the full frame. -/
def primImage7 : Primitive :=
  { kind := .Image 7 none none, scizzor := fullRect,
    rect := { l := 0, r := 10, b := 0, t := 10 } }

/-- An empty triangle batch whose clip rectangle differs from the full
framebuffer rectangle. -/
def primTrisEmptyClip : Primitive :=
  { kind := .TrianglesSingleColor blackQ [], scizzor := halfRect, rect := fullRect }

/-- A batcher state already in the `Image 7` draw state. -/
def stImage7 : FillState :=
  { commands := [], vertices := [], current_state := .Image 7 0,
    current_scizzor := initScizzor envSome7 }

/-- An empty triangle batch whose clip rectangle maps to the full
framebuffer rectangle (no scissor change). -/
def primTrisEmptyNoClip : Primitive :=
  { kind := .TrianglesSingleColor blackQ [], scizzor := fullRect, rect := fullRect }

/-! Helper lemmas about the extractors and checkers. -/

theorem drawRanges_append (xs ys : List PreparedCommand) :
    drawRanges (xs ++ ys) = drawRanges xs ++ drawRanges ys := by
  induction xs with
  | nil => simp [drawRanges]
  | cons c cs ih => cases c <;> simp [drawRanges, ih]

theorem scizzorsOf_append (xs ys : List PreparedCommand) :
    scizzorsOf (xs ++ ys) = scizzorsOf xs ++ scizzorsOf ys := by
  induction xs with
  | nil => simp [scizzorsOf]
  | cons c cs ih => cases c <;> simp [scizzorsOf, ih]

theorem chainB_le {a b : ℕ} {rs : List (ℕ × ℕ)} (h : chainB a rs b = true) : a ≤ b := by
  induction rs generalizing a with
  | nil => simp [chainB] at h; omega
  | cons r rs ih =>
    obtain ⟨s, e⟩ := r
    simp only [chainB, Bool.and_eq_true, beq_iff_eq, decide_eq_true_eq] at h
    exact le_trans h.1.2 (ih h.2)

theorem chainB_append_last {a b c : ℕ} {rs : List (ℕ × ℕ)} (h : chainB a rs b = true)
    (hbc : b ≤ c) : chainB a (rs ++ [(b, c)]) c = true := by
  induction rs generalizing a with
  | nil =>
    simp [chainB] at h
    simp [chainB, h, hbc]
  | cons r rs ih =>
    obtain ⟨s, e⟩ := r
    simp only [chainB, Bool.and_eq_true, beq_iff_eq, decide_eq_true_eq] at h
    simp only [List.cons_append, chainB, Bool.and_eq_true, beq_iff_eq, decide_eq_true_eq]
    exact ⟨⟨h.1.1, h.1.2⟩, ih h.2⟩

theorem joinRanges_of_chain {a b : ℕ} {rs : List (ℕ × ℕ)} (h : chainB a rs b = true) :
    joinRanges rs = List.range' a (b - a) := by
  induction rs generalizing a with
  | nil =>
    simp [chainB] at h
    simp [joinRanges, h]
  | cons r rs ih =>
    obtain ⟨s, e⟩ := r
    simp only [chainB, Bool.and_eq_true, beq_iff_eq, decide_eq_true_eq] at h
    obtain ⟨⟨hs, hae⟩, hch⟩ := h
    have heb : e ≤ b := chainB_le hch
    have h2 : a + 1 * (e - a) = e := by omega
    have h3 : (b - e) + (e - a) = b - a := by omega
    have hr := List.range'_append a (e - a) (b - e) 1
    rw [h2, h3] at hr
    rw [joinRanges, ih hch, hs]
    exact hr

theorem mult3B_concat (rs : List (ℕ × ℕ)) (r : ℕ × ℕ) :
    mult3B (rs ++ [r]) = (mult3B rs && ((r.2 - r.1) % 3 == 0)) := by
  simp [mult3B]

theorem lastOpt_concat (prev : Option PreparedCommand) (xs : List PreparedCommand)
    (c : PreparedCommand) : lastOpt prev (xs ++ [c]) = some c := by
  induction xs generalizing prev with
  | nil => rfl
  | cons d ds ih => simpa [lastOpt] using ih (some d)

theorem chkPairs_append (f : PreparedCommand → PreparedCommand → Bool)
    (xs : List PreparedCommand) (prev : Option PreparedCommand) (ys : List PreparedCommand) :
    chkPairs f prev (xs ++ ys) =
      (chkPairs f prev xs && chkPairs f (lastOpt prev xs) ys) := by
  induction xs generalizing prev with
  | nil => simp [chkPairs, lastOpt]
  | cons c cs ih => simp [chkPairs, lastOpt, ih, Bool.and_assoc]

theorem chkPairs_push1 (f : PreparedCommand → PreparedCommand → Bool)
    (cs : List PreparedCommand) (c : PreparedCommand)
    (h : chkPairs f none cs = true)
    (h1 : ∀ p, lastOpt none cs = some p → f p c = true) :
    chkPairs f none (cs ++ [c]) = true := by
  rw [chkPairs_append]
  simp only [h, Bool.true_and]
  cases hl : lastOpt none cs with
  | none => simp [chkPairs]
  | some p => simp [chkPairs, h1 p hl]

theorem chkPairs_push2 (f : PreparedCommand → PreparedCommand → Bool)
    (cs : List PreparedCommand) (c1 c2 : PreparedCommand)
    (h : chkPairs f none cs = true)
    (h1 : ∀ p, lastOpt none cs = some p → f p c1 = true)
    (h12 : f c1 c2 = true) :
    chkPairs f none (cs ++ [c1, c2]) = true := by
  have e : cs ++ [c1, c2] = (cs ++ [c1]) ++ [c2] := by simp
  rw [e]
  refine chkPairs_push1 f (cs ++ [c1]) c2 (chkPairs_push1 f cs c1 h h1) ?_
  intro p hp
  rw [lastOpt_concat] at hp
  cases hp
  exact h12

theorem scizzorNotFirstB_append_draw (cs cs2 : List PreparedCommand) (c : PreparedCommand)
    (hc : isDrawB c = true) (h : scizzorNotFirstB cs = true) :
    scizzorNotFirstB (cs ++ c :: cs2) = true := by
  cases cs with
  | nil => simpa [scizzorNotFirstB]
  | cons d ds => simpa [scizzorNotFirstB] using h

theorem closeCommand_isDraw (ds : DrawState) (len : ℕ) :
    isDrawB (closeCommand ds len) = true := by
  cases ds <;> rfl

theorem drawRanges_close (ds : DrawState) (len : ℕ) :
    drawRanges [closeCommand ds len] = [(ds.start, len)] := by
  cases ds <;> rfl

theorem drawBeforeScizzorP_close (p : PreparedCommand) (ds : DrawState) (len : ℕ) :
    drawBeforeScizzorP p (closeCommand ds len) = true := by
  cases ds <;> rfl

theorem lastIsDrawB_concat (cs : List PreparedCommand) (c : PreparedCommand) :
    lastIsDrawB (cs ++ [c]) = isDrawB c := by
  simp [lastIsDrawB, List.getLast?_concat]

theorem drawRanges_close_sciz (ds : DrawState) (len : ℕ) (r : GlRect) :
    drawRanges [closeCommand ds len, .Scizzor r] = [(ds.start, len)] := by
  cases ds <;> rfl

theorem length_flatMap_three {α : Type} (l : List α) (f : α → List Vertex)
    (hf : ∀ a, (f a).length = 3) : (l.flatMap f).length = 3 * l.length := by
  induction l with
  | nil => simp
  | cons a l ih => simp [hf, ih]; omega

theorem length_flatMap_mod3 {α : Type} (l : List α) (f : α → List Vertex)
    (hf : ∀ a, (f a).length % 3 = 0) : (l.flatMap f).length % 3 = 0 := by
  induction l with
  | nil => simp
  | cons a l ih =>
    have := hf a
    simp only [List.flatMap_cons, List.length_append]
    omega

theorem rectVertices_length (env : FillEnv) (color : Q4) (rc : Rect) :
    (rectVertices env color rc).length = 6 := rfl

theorem glyphQuad_length (env : FillEnv) (color : Q4) (uv : QRect) (sr : IRect) :
    (glyphQuad env color uv sr).length = 6 := rfl

theorem imageVertices_length (env : FillEnv) (color : Q4) (iw ih : ℕ)
    (sr : Option Rect) (rc : Rect) : (imageVertices env color iw ih sr rc).length = 6 := by
  cases sr <;> rfl

theorem trianglesSingleVertices_length (env : FillEnv) (color : Q4)
    (tris : List (Q2 × Q2 × Q2)) :
    (trianglesSingleVertices env color tris).length = 3 * tris.length := by
  refine length_flatMap_three tris _ fun a => rfl

theorem trianglesMultiVertices_length (env : FillEnv)
    (tris : List (ColoredPoint × ColoredPoint × ColoredPoint)) :
    (trianglesMultiVertices env tris).length = 3 * tris.length := by
  refine length_flatMap_three tris _ fun a => rfl

theorem textVertices_mod3 (env : FillEnv) (color : Q4)
    (glyphs : List (Option (QRect × IRect))) :
    (textVertices env color glyphs).length % 3 = 0 := by
  refine length_flatMap_mod3 glyphs _ fun g => ?_
  cases g with
  | none => rfl
  | some p => obtain ⟨uv, sr⟩ := p; simp [glyphQuad]

theorem switchToPlain_state (st : FillState) :
    ∃ s, (switchToPlain st).current_state = .Plain s := by
  rw [switchToPlain]
  cases hds : st.current_state with
  | Plain s => exact ⟨s, hds⟩
  | Image id s => exact ⟨st.vertices.length, rfl⟩

theorem imageSwitch_state_id (st : FillState) (nid : ℕ) (id2 : ℕ) (s2 : ℕ)
    (h : (imageSwitch st nid).current_state = .Image id2 s2) : id2 = nid := by
  rw [imageSwitch] at h
  cases hds : st.current_state with
  | Plain s =>
    rw [hds] at h
    dsimp only at h
    injection h with h1 h2
    exact h1.symm
  | Image id s =>
    rw [hds] at h
    dsimp only at h
    by_cases he : id = nid
    · rw [if_pos he] at h
      rw [hds] at h
      injection h with h1 h2
      rw [← h1]
      exact he
    · rw [if_neg he] at h
      dsimp only at h
      injection h with h1 h2
      exact h1.symm

/-! Preservation of the loop invariant by each piece of the loop body. -/

theorem inv_scissorCheck (env : FillEnv) (st : FillState) (p : Primitive)
    (h : Inv env st) : Inv env (scissorCheck env st p) := by
  simp only [scissorCheck]
  split
  case isTrue hc =>
    constructor
    case chain =>
      simp only [DrawState.start, drawRanges_append, drawRanges_close_sciz]
      exact chainB_append_last h.chain h.startLe
    case startLe => simp [DrawState.start]
    case mod3 =>
      simp only [drawRanges_append, drawRanges_close_sciz, mult3B_concat, h.mod3, Bool.true_and]
      simpa using h.mod3cur
    case mod3cur => simp [DrawState.start]
    case notFirst =>
      exact scizzorNotFirstB_append_draw _ _ _ (closeCommand_isDraw _ _) h.notFirst
    case noTwoSciz =>
      refine chkPairs_push2 _ _ _ _ h.noTwoSciz
        (fun q _ => drawBeforeScizzorP_close q _ _) ?_
      cases st.current_state <;> rfl
    case postPlain =>
      refine chkPairs_push2 _ _ _ _ h.postPlain ?_ ?_
      · intro q hq
        cases q with
        | Scizzor r =>
          obtain ⟨s, hs⟩ := h.lastSciz r hq
          rw [hs]
          rfl
        | Image id s e => rfl
        | Plain s e => rfl
      · cases st.current_state <;> rfl
    case noAdjImg =>
      refine chkPairs_push2 _ _ _ _ h.noAdjImg ?_ ?_
      · intro q hq
        cases q with
        | Image id s e =>
          cases hds : st.current_state with
          | Plain s2 => rfl
          | Image id2 s2 =>
            have hne : id ≠ id2 := by
              intro he
              exact (h.lastImg id s e hq s2) (by rw [hds, he])
            simp [closeCommand, distinctImagesP, hne]
        | Plain s e => cases st.current_state <;> rfl
        | Scizzor r => cases st.current_state <;> rfl
      · cases st.current_state <;> rfl
    case lastSciz => exact fun r _ => ⟨st.vertices.length, rfl⟩
    case lastImg => intro id s e _ s2 hcon; cases hcon
    case absentOk =>
      have hall := h.absentOk
      simp only [absentImagesEmptyB, List.all_append, List.all_cons, List.all_nil,
        Bool.and_eq_true, and_true] at hall ⊢
      refine ⟨hall, ?_⟩
      cases hds : st.current_state with
      | Plain s => rfl
      | Image id s =>
        simp only [closeCommand]
        cases hm : env.image_map id with
        | some wh => simp [hm]
        | none =>
          have hse := h.curAbsent id s hds hm
          simp [hm, hse]
    case curAbsent => intro id s hcon; cases hcon
  case isFalse => exact h

theorem inv_switchToPlain (env : FillEnv) (st : FillState) (h : Inv env st) :
    Inv env (switchToPlain st) := by
  rw [switchToPlain]
  cases hds : st.current_state with
  | Plain s => exact h
  | Image id s =>
    have hc := h.chain
    have hle := h.startLe
    have hm3 := h.mod3cur
    rw [hds] at hc hle hm3
    simp only [DrawState.start] at hc hle hm3
    constructor
    case chain =>
      simp only [DrawState.start, drawRanges_append, drawRanges]
      exact chainB_append_last hc hle
    case startLe => simp [DrawState.start]
    case mod3 =>
      simp only [drawRanges_append, drawRanges, mult3B_concat, h.mod3, Bool.true_and]
      simpa using hm3
    case mod3cur => simp [DrawState.start]
    case notFirst => exact scizzorNotFirstB_append_draw _ _ _ rfl h.notFirst
    case noTwoSciz => exact chkPairs_push1 _ _ _ h.noTwoSciz fun q _ => rfl
    case postPlain =>
      refine chkPairs_push1 _ _ _ h.postPlain ?_
      intro q hq
      cases q with
      | Scizzor r =>
        obtain ⟨s2, hs2⟩ := h.lastSciz r hq
        rw [hds] at hs2
        cases hs2
      | Image id3 s3 e3 => rfl
      | Plain s3 e3 => rfl
    case noAdjImg =>
      refine chkPairs_push1 _ _ _ h.noAdjImg ?_
      intro q hq
      cases q with
      | Image id3 s3 e3 =>
        have hne : id3 ≠ id := by
          intro he
          exact (h.lastImg id3 s3 e3 hq s) (by rw [hds, he])
        simp [distinctImagesP, hne]
      | Plain s3 e3 => rfl
      | Scizzor r => rfl
    case lastSciz =>
      intro r hr
      rw [lastOpt_concat] at hr
      simp at hr
    case lastImg =>
      intro id2 s2 e2 hq s3
      simp
    case absentOk =>
      have hall := h.absentOk
      simp only [absentImagesEmptyB, List.all_append, List.all_cons, List.all_nil,
        Bool.and_eq_true, and_true] at hall ⊢
      refine ⟨hall, ?_⟩
      cases hm : env.image_map id with
      | some wh => simp [hm]
      | none =>
        have hse := h.curAbsent id s hds hm
        simp [hm, hse]
    case curAbsent => intro id2 s2 hcon; cases hcon

theorem inv_imageSwitch (env : FillEnv) (st : FillState) (nid : ℕ) (h : Inv env st) :
    Inv env (imageSwitch st nid) := by
  rw [imageSwitch]
  cases hds : st.current_state with
  | Image id s =>
    dsimp only
    by_cases he : id = nid
    · rw [if_pos he]
      exact h
    · rw [if_neg he]
      have hc := h.chain
      have hle := h.startLe
      have hm3 := h.mod3cur
      rw [hds] at hc hle hm3
      simp only [DrawState.start] at hc hle hm3
      constructor
      · simp only [DrawState.start, drawRanges_append, drawRanges]
        exact chainB_append_last hc hle
      · simp [DrawState.start]
      · simp only [drawRanges_append, drawRanges, mult3B_concat, h.mod3, Bool.true_and]
        simpa using hm3
      · simp [DrawState.start]
      · exact scizzorNotFirstB_append_draw _ _ _ rfl h.notFirst
      · exact chkPairs_push1 _ _ _ h.noTwoSciz fun q _ => rfl
      · refine chkPairs_push1 _ _ _ h.postPlain ?_
        intro q hq
        cases q with
        | Scizzor r =>
          obtain ⟨s2, hs2⟩ := h.lastSciz r hq
          rw [hds] at hs2
          cases hs2
        | Image id3 s3 e3 => rfl
        | Plain s3 e3 => rfl
      · refine chkPairs_push1 _ _ _ h.noAdjImg ?_
        intro q hq
        cases q with
        | Image id3 s3 e3 =>
          have hne : id3 ≠ id := by
            intro h2
            exact (h.lastImg id3 s3 e3 hq s) (by rw [hds, h2])
          simp [distinctImagesP, hne]
        | Plain s3 e3 => rfl
        | Scizzor r => rfl
      · intro r hr
        rw [lastOpt_concat] at hr
        simp at hr
      · intro id2 s2 e2 hq s3
        rw [lastOpt_concat] at hq
        injection hq with hq1
        injection hq1 with ha hb hc2
        intro hcon
        injection hcon with hc1 hc3
        exact he (ha.trans hc1.symm)
      · have hall := h.absentOk
        simp only [absentImagesEmptyB, List.all_append, List.all_cons, List.all_nil,
          Bool.and_eq_true, and_true] at hall ⊢
        refine ⟨hall, ?_⟩
        cases hm : env.image_map id with
        | some wh => simp [hm]
        | none =>
          have hse := h.curAbsent id s hds hm
          simp [hm, hse]
      · intro id2 s2 hcon hmap
        injection hcon with hc1 hc2
        exact hc2.symm
  | Plain s =>
    dsimp only
    have hc := h.chain
    have hle := h.startLe
    have hm3 := h.mod3cur
    rw [hds] at hc hle hm3
    simp only [DrawState.start] at hc hle hm3
    constructor
    case chain =>
      simp only [DrawState.start, drawRanges_append, drawRanges]
      exact chainB_append_last hc hle
    case startLe => simp [DrawState.start]
    case mod3 =>
      simp only [drawRanges_append, drawRanges, mult3B_concat, h.mod3, Bool.true_and]
      simpa using hm3
    case mod3cur => simp [DrawState.start]
    case notFirst => exact scizzorNotFirstB_append_draw _ _ _ rfl h.notFirst
    case noTwoSciz => exact chkPairs_push1 _ _ _ h.noTwoSciz fun q _ => rfl
    case postPlain =>
      refine chkPairs_push1 _ _ _ h.postPlain ?_
      intro q hq
      cases q <;> rfl
    case noAdjImg =>
      refine chkPairs_push1 _ _ _ h.noAdjImg ?_
      intro q hq
      cases q <;> rfl
    case lastSciz =>
      intro r hr
      rw [lastOpt_concat] at hr
      simp at hr
    case lastImg =>
      intro id2 s2 e2 hq s3
      rw [lastOpt_concat] at hq
      simp at hq
    case absentOk =>
      have hall := h.absentOk
      simp only [absentImagesEmptyB, List.all_append, List.all_cons, List.all_nil,
        Bool.and_eq_true, and_true] at hall ⊢
      simpa using hall
    case curAbsent =>
      intro id2 s2 hcon hmap
      injection hcon with hc1 hc2
      exact hc2.symm

theorem inv_pushVertices (env : FillEnv) (st : FillState) (vs : List Vertex)
    (h : Inv env st) (h3 : vs.length % 3 = 0)
    (hcur : ∀ id s, st.current_state = .Image id s → (env.image_map id).isSome = true) :
    Inv env (pushVertices st vs) := by
  have hle := h.startLe
  have hm3 := h.mod3cur
  constructor
  case chain => exact h.chain
  case startLe =>
    simp only [pushVertices, List.length_append]
    omega
  case mod3 => exact h.mod3
  case mod3cur =>
    simp only [pushVertices, List.length_append]
    omega
  case notFirst => exact h.notFirst
  case noTwoSciz => exact h.noTwoSciz
  case postPlain => exact h.postPlain
  case noAdjImg => exact h.noAdjImg
  case lastSciz => exact h.lastSciz
  case lastImg => exact h.lastImg
  case absentOk => exact h.absentOk
  case curAbsent =>
    intro id s hc hmap
    have := hcur id s hc
    rw [hmap] at this
    cases this

theorem inv_fillStep (env : FillEnv) (st : FillState) (p : Primitive) (h : Inv env st) :
    Inv env (fillStep env st p) := by
  obtain ⟨k, sz, rc⟩ := p
  have hsc := inv_scissorCheck env st ⟨k, sz, rc⟩ h
  set st1 := scissorCheck env st ⟨k, sz, rc⟩ with hst1
  have hplain : ∀ id s, (switchToPlain st1).current_state = .Image id s →
      (env.image_map id).isSome = true := by
    intro id s hc
    obtain ⟨s2, hs2⟩ := switchToPlain_state st1
    rw [hs2] at hc
    cases hc
  cases k with
  | Rectangle color =>
    refine inv_pushVertices env _ _ (inv_switchToPlain env st1 hsc) ?_ hplain
    rw [rectVertices_length]
  | TrianglesSingleColor color tris =>
    show Inv env (if tris.isEmpty then st1
      else pushVertices (switchToPlain st1) (trianglesSingleVertices env color tris))
    split
    · exact hsc
    · refine inv_pushVertices env _ _ (inv_switchToPlain env st1 hsc) ?_ hplain
      rw [trianglesSingleVertices_length]
      omega
  | TrianglesMultiColor tris =>
    show Inv env (if tris.isEmpty then st1
      else pushVertices (switchToPlain st1) (trianglesMultiVertices env tris))
    split
    · exact hsc
    · refine inv_pushVertices env _ _ (inv_switchToPlain env st1 hsc) ?_ hplain
      rw [trianglesMultiVertices_length]
      omega
  | Text color glyphs =>
    refine inv_pushVertices env _ _ (inv_switchToPlain env st1 hsc) ?_ hplain
    exact textVertices_mod3 env color glyphs
  | Image image_id color source_rect =>
    show Inv env (match env.image_map image_id with
      | some wh => pushVertices (imageSwitch st1 image_id)
          (imageVertices env (color.getD WHITE) wh.1 wh.2 source_rect rc)
      | none => imageSwitch st1 image_id)
    cases hm : env.image_map image_id with
    | some wh =>
      refine inv_pushVertices env _ _ (inv_imageSwitch env st1 image_id hsc) ?_ ?_
      · rw [imageVertices_length]
      · intro id s hc
        have := imageSwitch_state_id st1 image_id id s hc
        rw [this, hm]
        rfl
    | none => exact inv_imageSwitch env st1 image_id hsc
  | Other => exact hsc

theorem inv_fillLoop (env : FillEnv) (ps : List Primitive) (st : FillState)
    (h : Inv env st) : Inv env (fillLoop env st ps) := by
  induction ps generalizing st with
  | nil => exact h
  | cons p ps ih => exact ih (fillStep env st p) (inv_fillStep env st p h)

theorem inv_init (env : FillEnv) : Inv env (initFillState env) := by
  constructor
  case chain => rfl
  case startLe => exact le_refl 0
  case mod3 => rfl
  case mod3cur => rfl
  case notFirst => rfl
  case noTwoSciz => rfl
  case postPlain => rfl
  case noAdjImg => rfl
  case lastSciz => intro r hr; cases hr
  case lastImg => intro id s e hq; cases hq
  case absentOk => rfl
  case curAbsent => intro id s hcon; cases hcon

/-! Trace lemmas: how each piece of the loop body affects the scissor
command subsequence and the active scissor rectangle. -/

theorem scissorCheck_scizzorsOf (env : FillEnv) (st : FillState) (p : Primitive) :
    scizzorsOf (scissorCheck env st p).commands =
      scizzorsOf st.commands ++
        (if rect_to_gl_rect env p.scizzor ≠ st.current_scizzor
         then [rect_to_gl_rect env p.scizzor] else []) := by
  simp only [scissorCheck]
  split
  case isTrue hc =>
    rw [scizzorsOf_append]
    congr 1
    cases st.current_state <;> rfl
  case isFalse hc => simp

theorem scissorCheck_scizzor (env : FillEnv) (st : FillState) (p : Primitive) :
    (scissorCheck env st p).current_scizzor = rect_to_gl_rect env p.scizzor := by
  simp only [scissorCheck]
  split
  case isTrue hc => rfl
  case isFalse hc => exact (not_not.mp hc).symm

theorem scissorCheck_vertices (env : FillEnv) (st : FillState) (p : Primitive) :
    (scissorCheck env st p).vertices = st.vertices := by
  simp only [scissorCheck]
  split <;> rfl

theorem scissorCheck_eq_same (env : FillEnv) (st : FillState) (p : Primitive)
    (h : rect_to_gl_rect env p.scizzor = st.current_scizzor) :
    scissorCheck env st p = st := by
  simp [scissorCheck, h]

theorem switchToPlain_scizzorsOf (st : FillState) :
    scizzorsOf (switchToPlain st).commands = scizzorsOf st.commands := by
  rw [switchToPlain]
  cases st.current_state with
  | Plain s => rfl
  | Image id s => simp [scizzorsOf_append, scizzorsOf]

theorem switchToPlain_scizzor (st : FillState) :
    (switchToPlain st).current_scizzor = st.current_scizzor := by
  rw [switchToPlain]
  cases st.current_state <;> rfl

theorem switchToPlain_vertices (st : FillState) :
    (switchToPlain st).vertices = st.vertices := by
  rw [switchToPlain]
  cases st.current_state <;> rfl

theorem imageSwitch_scizzorsOf (st : FillState) (nid : ℕ) :
    scizzorsOf (imageSwitch st nid).commands = scizzorsOf st.commands := by
  rw [imageSwitch]
  cases st.current_state with
  | Plain s => simp [scizzorsOf_append, scizzorsOf]
  | Image id s =>
    dsimp only
    split
    · rfl
    · simp [scizzorsOf_append, scizzorsOf]

theorem imageSwitch_scizzor (st : FillState) (nid : ℕ) :
    (imageSwitch st nid).current_scizzor = st.current_scizzor := by
  rw [imageSwitch]
  cases st.current_state with
  | Plain s => rfl
  | Image id s => dsimp only; split <;> rfl

theorem imageSwitch_vertices (st : FillState) (nid : ℕ) :
    (imageSwitch st nid).vertices = st.vertices := by
  rw [imageSwitch]
  cases st.current_state with
  | Plain s => rfl
  | Image id s => dsimp only; split <;> rfl

theorem fillStep_scizzorsOf (env : FillEnv) (st : FillState) (p : Primitive) :
    scizzorsOf (fillStep env st p).commands =
      scizzorsOf st.commands ++
        (if rect_to_gl_rect env p.scizzor ≠ st.current_scizzor
         then [rect_to_gl_rect env p.scizzor] else []) := by
  obtain ⟨k, sz, rc⟩ := p
  have hbase := scissorCheck_scizzorsOf env st ⟨k, sz, rc⟩
  set st1 := scissorCheck env st ⟨k, sz, rc⟩ with hst1
  cases k with
  | Rectangle color =>
    show scizzorsOf (pushVertices (switchToPlain st1) _).commands = _
    rw [show (pushVertices (switchToPlain st1) _).commands = (switchToPlain st1).commands
      from rfl]
    rw [switchToPlain_scizzorsOf, hbase]
  | TrianglesSingleColor color tris =>
    show scizzorsOf (if tris.isEmpty then st1
      else pushVertices (switchToPlain st1) (trianglesSingleVertices env color tris)).commands = _
    split
    · exact hbase
    · rw [show (pushVertices (switchToPlain st1) _).commands = (switchToPlain st1).commands
        from rfl]
      rw [switchToPlain_scizzorsOf, hbase]
  | TrianglesMultiColor tris =>
    show scizzorsOf (if tris.isEmpty then st1
      else pushVertices (switchToPlain st1) (trianglesMultiVertices env tris)).commands = _
    split
    · exact hbase
    · rw [show (pushVertices (switchToPlain st1) _).commands = (switchToPlain st1).commands
        from rfl]
      rw [switchToPlain_scizzorsOf, hbase]
  | Text color glyphs =>
    show scizzorsOf (pushVertices (switchToPlain st1) _).commands = _
    rw [show (pushVertices (switchToPlain st1) _).commands = (switchToPlain st1).commands
      from rfl]
    rw [switchToPlain_scizzorsOf, hbase]
  | Image image_id color source_rect =>
    show scizzorsOf (match env.image_map image_id with
      | some wh => pushVertices (imageSwitch st1 image_id)
          (imageVertices env (color.getD WHITE) wh.1 wh.2 source_rect rc)
      | none => imageSwitch st1 image_id).commands = _
    cases hm : env.image_map image_id with
    | some wh =>
      rw [show (pushVertices (imageSwitch st1 image_id) _).commands =
        (imageSwitch st1 image_id).commands from rfl]
      rw [imageSwitch_scizzorsOf, hbase]
    | none => rw [imageSwitch_scizzorsOf, hbase]
  | Other => exact hbase

theorem fillStep_scizzor (env : FillEnv) (st : FillState) (p : Primitive) :
    (fillStep env st p).current_scizzor = rect_to_gl_rect env p.scizzor := by
  obtain ⟨k, sz, rc⟩ := p
  have hbase := scissorCheck_scizzor env st ⟨k, sz, rc⟩
  set st1 := scissorCheck env st ⟨k, sz, rc⟩ with hst1
  cases k with
  | Rectangle color =>
    show (pushVertices (switchToPlain st1) _).current_scizzor = _
    rw [show (pushVertices (switchToPlain st1) _).current_scizzor =
      (switchToPlain st1).current_scizzor from rfl, switchToPlain_scizzor]
    exact hbase
  | TrianglesSingleColor color tris =>
    show (if tris.isEmpty then st1
      else pushVertices (switchToPlain st1) (trianglesSingleVertices env color tris)).current_scizzor = _
    split
    · exact hbase
    · rw [show (pushVertices (switchToPlain st1) _).current_scizzor =
        (switchToPlain st1).current_scizzor from rfl, switchToPlain_scizzor]
      exact hbase
  | TrianglesMultiColor tris =>
    show (if tris.isEmpty then st1
      else pushVertices (switchToPlain st1) (trianglesMultiVertices env tris)).current_scizzor = _
    split
    · exact hbase
    · rw [show (pushVertices (switchToPlain st1) _).current_scizzor =
        (switchToPlain st1).current_scizzor from rfl, switchToPlain_scizzor]
      exact hbase
  | Text color glyphs =>
    show (pushVertices (switchToPlain st1) _).current_scizzor = _
    rw [show (pushVertices (switchToPlain st1) _).current_scizzor =
      (switchToPlain st1).current_scizzor from rfl, switchToPlain_scizzor]
    exact hbase
  | Image image_id color source_rect =>
    show (match env.image_map image_id with
      | some wh => pushVertices (imageSwitch st1 image_id)
          (imageVertices env (color.getD WHITE) wh.1 wh.2 source_rect rc)
      | none => imageSwitch st1 image_id).current_scizzor = _
    cases hm : env.image_map image_id with
    | some wh =>
      rw [show (pushVertices (imageSwitch st1 image_id) _).current_scizzor =
        (imageSwitch st1 image_id).current_scizzor from rfl, imageSwitch_scizzor]
      exact hbase
    | none => rw [imageSwitch_scizzor]; exact hbase
  | Other => exact hbase

theorem fillLoop_scizzorsOf (env : FillEnv) (ps : List Primitive) (st : FillState) :
    scizzorsOf (fillLoop env st ps).commands =
      scizzorsOf st.commands ++ scissorChanges env st.current_scizzor ps := by
  induction ps generalizing st with
  | nil => simp [fillLoop, scissorChanges]
  | cons p ps ih =>
    rw [fillLoop, ih, fillStep_scizzorsOf, fillStep_scizzor]
    rw [scissorChanges]
    split
    case isTrue hc => simp
    case isFalse hc =>
      rw [not_not] at hc
      rw [hc]
      simp

theorem finishFill_commands (st : FillState) :
    (finishFill st).commands =
      st.commands ++ [closeCommand st.current_state st.vertices.length] := rfl

theorem finishFill_vertices (st : FillState) : (finishFill st).vertices = st.vertices := rfl

theorem scizzorsOf_close (ds : DrawState) (len : ℕ) :
    scizzorsOf [closeCommand ds len] = [] := by
  cases ds <;> rfl

theorem absentOk_push_close (env : FillEnv) (st : FillState) (h : Inv env st) :
    absentImagesEmptyB env
      (st.commands ++ [closeCommand st.current_state st.vertices.length]) = true := by
  have hall := h.absentOk
  simp only [absentImagesEmptyB, List.all_append, List.all_cons, List.all_nil,
    Bool.and_eq_true, and_true] at hall ⊢
  refine ⟨hall, ?_⟩
  cases hds : st.current_state with
  | Plain s => rfl
  | Image id s =>
    simp only [closeCommand]
    cases hm : env.image_map id with
    | some wh => simp [hm]
    | none =>
      have hse := h.curAbsent id s hds hm
      simp [hm, hse]

theorem imageSwitch_eq_same (st : FillState) (id s : ℕ)
    (hds : st.current_state = .Image id s) : imageSwitch st id = st := by
  rw [imageSwitch, hds]
  dsimp only
  rw [if_pos rfl]

/-! Claim theorems. -/

/-- Claim C1: for every finite primitive stream, framebuffer size and scale
factor, after `Renderer::fill` the vertex ranges carried by the `Plain` and
`Image` commands tile the vertex array: each range starts where the previous
one stopped, the first starts at index 0, the last stops at the array
length, and starts never exceed stops.  Hence the ranges are pairwise
non-overlapping, ordered along the vertex array in command order, and their
concatenation in command order is exactly the index sequence of the full
vertex array, with no gaps or overlaps (`Scizzor` commands carry no
range). -/
theorem fill_ranges_partition (env : FillEnv) (prims : List Primitive) :
    chainB 0 (drawRanges (fill env prims).commands)
      (fill env prims).vertices.length = true ∧
    joinRanges (drawRanges (fill env prims).commands) =
      List.range (fill env prims).vertices.length := by
  have H := inv_fillLoop env prims (initFillState env) (inv_init env)
  have hchain : chainB 0 (drawRanges (fill env prims).commands)
      (fill env prims).vertices.length = true := by
    rw [show fill env prims = finishFill (fillLoop env (initFillState env) prims) from rfl,
      finishFill_commands, finishFill_vertices, drawRanges_append, drawRanges_close]
    exact chainB_append_last H.chain H.startLe
  refine ⟨hchain, ?_⟩
  rw [joinRanges_of_chain hchain, List.range_eq_range', Nat.sub_zero]

/-- Claim C5: for every primitive stream, every `Plain` and every `Image`
command emitted by `Renderer::fill` has a vertex range whose length is a
multiple of 3: rectangles, placed glyphs and image quads contribute 6
vertices each, triangle batches 3 per triangle, and ranges are only closed
at such boundaries. -/
theorem fill_ranges_mult3 (env : FillEnv) (prims : List Primitive) :
    mult3B (drawRanges (fill env prims).commands) = true := by
  have H := inv_fillLoop env prims (initFillState env) (inv_init env)
  rw [show fill env prims = finishFill (fillLoop env (initFillState env) prims) from rfl,
    finishFill_commands, drawRanges_append, drawRanges_close, mult3B_concat]
  have hm := H.mod3cur
  simp [H.mod3, hm]

/-- Claim C7: for every primitive stream, `Renderer::fill` closes the
still-open range into a final `Plain` or `Image` command when the stream is
exhausted, so the command list is nonempty and its last element is a draw
command (never a `Scizzor`); an empty stream yields exactly one `Plain`
command with the empty range `0..0`. -/
theorem fill_final_command_closes (env : FillEnv) (prims : List Primitive) :
    lastIsDrawB (fill env prims).commands = true ∧
    (fill env []).commands = [.Plain 0 0] := by
  constructor
  · rw [show fill env prims = finishFill (fillLoop env (initFillState env) prims) from rfl,
      finishFill_commands, lastIsDrawB_concat]
    exact closeCommand_isDraw _ _
  · rfl

/-- Claim C2: during `Renderer::fill`, a clip change closes the in-flight
draw range first and resets the draw state to `Plain`: the sequence of
`Scizzor` rectangles equals the sequence of mapped clip rectangles that
differ from the currently active one (the frame starting with the full
framebuffer rectangle, so a `Scizzor` command is emitted iff the mapped
clip rectangle differs from the immediately preceding active one); every
`Scizzor` command is immediately preceded by a draw command (and is never
first), and the command immediately following every `Scizzor` is a `Plain`
command (the fresh range opened by the reset). -/
theorem fill_scissor_protocol (env : FillEnv) (prims : List Primitive) :
    scizzorsOf (fill env prims).commands =
      scissorChanges env (initScizzor env) prims ∧
    scizzorNotFirstB (fill env prims).commands = true ∧
    chkPairs drawBeforeScizzorP none (fill env prims).commands = true ∧
    chkPairs plainAfterScizzorP none (fill env prims).commands = true := by
  have H := inv_fillLoop env prims (initFillState env) (inv_init env)
  rw [show fill env prims = finishFill (fillLoop env (initFillState env) prims) from rfl,
    finishFill_commands]
  refine ⟨?_, ?_, ?_, ?_⟩
  · rw [scizzorsOf_append, scizzorsOf_close, List.append_nil,
      fillLoop_scizzorsOf env prims (initFillState env)]
    rfl
  · exact scizzorNotFirstB_append_draw _ _ _ (closeCommand_isDraw _ _) H.notFirst
  · exact chkPairs_push1 _ _ _ H.noTwoSciz fun q _ => drawBeforeScizzorP_close q _ _
  · refine chkPairs_push1 _ _ _ H.postPlain ?_
    intro q hq
    cases q with
    | Scizzor r =>
      obtain ⟨s, hs⟩ := H.lastSciz r hq
      rw [hs]
      rfl
    | Image id s e => rfl
    | Plain s e => rfl

/-- Claim C6: for every primitive stream, the command list produced by
`Renderer::fill` never contains two adjacent `Image` commands with the same
image id; and a primitive requiring the same `Image(id)` draw state as the
current one, with an unchanged mapped clip rectangle, extends the current
range without emitting any command and without changing the draw state. -/
theorem fill_no_adjacent_same_image (env : FillEnv) (prims : List Primitive) :
    chkPairs distinctImagesP none (fill env prims).commands = true ∧
    (∀ (st : FillState) (p : Primitive) (id s : ℕ) (c : Option Q4) (sr : Option Rect),
      st.current_state = .Image id s → p.kind = .Image id c sr →
      rect_to_gl_rect env p.scizzor = st.current_scizzor →
      (fillStep env st p).commands = st.commands ∧
      (fillStep env st p).current_state = st.current_state) := by
  have H := inv_fillLoop env prims (initFillState env) (inv_init env)
  constructor
  · rw [show fill env prims = finishFill (fillLoop env (initFillState env) prims) from rfl,
      finishFill_commands]
    refine chkPairs_push1 _ _ _ H.noAdjImg ?_
    intro q hq
    cases q with
    | Image id s e =>
      cases hds : (fillLoop env (initFillState env) prims).current_state with
      | Plain s2 => rfl
      | Image id2 s2 =>
        have hne : id ≠ id2 := by
          intro he
          exact (H.lastImg id s e hq s2) (by rw [hds, he])
        simp [closeCommand, distinctImagesP, hne]
    | Plain s e => cases (fillLoop env (initFillState env) prims).current_state <;> rfl
    | Scizzor r => cases (fillLoop env (initFillState env) prims).current_state <;> rfl
  · intro st p id s c sr hds hk hclip
    obtain ⟨k, sz, rc⟩ := p
    cases hk
    have hsc : scissorCheck env st ⟨.Image id c sr, sz, rc⟩ = st :=
      scissorCheck_eq_same env st _ hclip
    have hsw : imageSwitch st id = st := imageSwitch_eq_same st id s hds
    show ((match env.image_map id with
      | some wh => pushVertices (imageSwitch (scissorCheck env st ⟨.Image id c sr, sz, rc⟩) id)
          (imageVertices env (c.getD WHITE) wh.1 wh.2 sr rc)
      | none => imageSwitch (scissorCheck env st ⟨.Image id c sr, sz, rc⟩) id).commands
        = st.commands) ∧
      ((match env.image_map id with
      | some wh => pushVertices (imageSwitch (scissorCheck env st ⟨.Image id c sr, sz, rc⟩) id)
          (imageVertices env (c.getD WHITE) wh.1 wh.2 sr rc)
      | none => imageSwitch (scissorCheck env st ⟨.Image id c sr, sz, rc⟩) id).current_state
        = st.current_state)
    rw [hsc, hsw]
    cases env.image_map id with
    | some wh => exact ⟨rfl, rfl⟩
    | none => exact ⟨rfl, rfl⟩

/-- Claim C3 (amended): a primitive stream may contain an `Image` primitive
whose id is absent from the image table; such a primitive contributes zero
vertices, but — contrary to the claim as stated — the batcher still
switches into the `Image(id)` draw state, and when that state is later
closed an `Image` command for the absent id IS pushed; its vertex range is
always empty (and `draw` skips ranges shorter than one triangle). -/
theorem fill_absent_image_amended :
    (∀ (env : FillEnv) (st : FillState) (p : Primitive) (id : ℕ) (c : Option Q4)
      (sr : Option Rect), p.kind = .Image id c sr → env.image_map id = none →
      (fillStep env st p).vertices = st.vertices) ∧
    (∀ (env : FillEnv) (prims : List Primitive),
      absentImagesEmptyB env (fill env prims).commands = true) := by
  constructor
  · intro env st p id c sr hk hm
    obtain ⟨k, sz, rc⟩ := p
    cases hk
    show (match env.image_map id with
      | some wh => pushVertices (imageSwitch (scissorCheck env st ⟨.Image id c sr, sz, rc⟩) id)
          (imageVertices env (c.getD WHITE) wh.1 wh.2 sr rc)
      | none => imageSwitch (scissorCheck env st ⟨.Image id c sr, sz, rc⟩) id).vertices
        = st.vertices
    rw [hm, imageSwitch_vertices, scissorCheck_vertices]
  · intro env prims
    have H := inv_fillLoop env prims (initFillState env) (inv_init env)
    rw [show fill env prims = finishFill (fillLoop env (initFillState env) prims) from rfl,
      finishFill_commands]
    exact absentOk_push_close env _ H

/-! Evaluation lemmas for the concrete rectangles (the rational floor
arithmetic is evaluated by norm_num). -/

theorem scissorCheck_eq_diff (env : FillEnv) (st : FillState) (p : Primitive)
    (h : rect_to_gl_rect env p.scizzor ≠ st.current_scizzor) :
    scissorCheck env st p =
      { commands := st.commands ++
          [closeCommand st.current_state st.vertices.length,
           .Scizzor (rect_to_gl_rect env p.scizzor)]
        vertices := st.vertices
        current_state := .Plain st.vertices.length
        current_scizzor := rect_to_gl_rect env p.scizzor } := by
  simp [scissorCheck, h]

theorem fillStep_image_none (env : FillEnv) (st : FillState) (id : ℕ) (c : Option Q4)
    (sr : Option Rect) (sz rc : Rect) (hm : env.image_map id = none) :
    fillStep env st ⟨.Image id c sr, sz, rc⟩ =
      imageSwitch (scissorCheck env st ⟨.Image id c sr, sz, rc⟩) id := by
  show (match env.image_map id with
    | some wh => pushVertices (imageSwitch (scissorCheck env st ⟨.Image id c sr, sz, rc⟩) id)
        (imageVertices env (c.getD WHITE) wh.1 wh.2 sr rc)
    | none => imageSwitch (scissorCheck env st ⟨.Image id c sr, sz, rc⟩) id) = _
  rw [hm]

theorem rect_eval_full : rect_to_gl_rect envNone fullRect = ⟨0, 0, 800, 600⟩ := by
  norm_num [rect_to_gl_rect, rustRound, asU32, envNone, fullRect,
    Rect.left, Rect.bottom, Rect.w_h]
  omega

theorem rect_eval_full7 : rect_to_gl_rect envSome7 fullRect = ⟨0, 0, 800, 600⟩ := by
  norm_num [rect_to_gl_rect, rustRound, asU32, envSome7, fullRect,
    Rect.left, Rect.bottom, Rect.w_h]
  omega

theorem rect_eval_half : rect_to_gl_rect envNone halfRect = ⟨400, 300, 400, 300⟩ := by
  norm_num [rect_to_gl_rect, rustRound, asU32, envNone, halfRect,
    Rect.left, Rect.bottom, Rect.w_h]
  omega

theorem rect_eval_far : rect_to_gl_rect envNone farRect = ⟨1200, 300, 10, 10⟩ := by
  norm_num [rect_to_gl_rect, rustRound, asU32, envNone, farRect,
    Rect.left, Rect.bottom, Rect.w_h]
  omega

/-- Claim C3 counterexample: the claim states that for an `Image` primitive
whose id (99) is absent from the image table no `Image` command is emitted
for it and the batcher state stays or reverts to `Plain`; but `fill` on the
single-primitive stream `[primImage99]` with an empty image table produces
the command list `[Plain 0..0, Image 99 0..0]` — an `Image` command for
id 99 IS emitted (with an empty range).  The zero-vertex half of the claim
does hold: the vertex array is empty. -/
theorem fill_absent_image_emits_command :
    (fill envNone [primImage99]).commands = [.Plain 0 0, .Image 99 0 0] ∧
    (fill envNone [primImage99]).vertices = [] := by
  simp only [primImage99]
  have h1 : scissorCheck envNone (initFillState envNone)
      ⟨.Image 99 none none, fullRect, { l := 0, r := 10, b := 0, t := 10 }⟩ =
      initFillState envNone := by
    refine scissorCheck_eq_same _ _ _ ?_
    show rect_to_gl_rect envNone fullRect = initScizzor envNone
    rw [rect_eval_full]
    rfl
  have h2 : fill envNone [⟨.Image 99 none none, fullRect, { l := 0, r := 10, b := 0, t := 10 }⟩] =
      finishFill (fillStep envNone (initFillState envNone)
        ⟨.Image 99 none none, fullRect, { l := 0, r := 10, b := 0, t := 10 }⟩) := rfl
  rw [h2, fillStep_image_none envNone (initFillState envNone) 99 none none fullRect
    { l := 0, r := 10, b := 0, t := 10 } rfl, h1]
  exact ⟨rfl, rfl⟩

/-- Claim C9 counterexample: the claim states an empty triangle batch is
skipped as a whole and causes no command to be emitted for it; but the
scissor check runs before the empty-batch check, so an empty
`TrianglesSingleColor` primitive whose clip rectangle differs from the
active one still closes the in-flight range and emits a `Scizzor` command:
`fill` on that single primitive yields three commands, while the empty
stream yields one. -/
theorem fill_empty_triangles_emits_commands :
    (fill envNone [primTrisEmptyClip]).commands =
      [.Plain 0 0, .Scizzor ⟨400, 300, 400, 300⟩, .Plain 0 0] ∧
    (fill envNone []).commands = [.Plain 0 0] ∧
    (fill envNone [primTrisEmptyClip]).commands ≠ (fill envNone []).commands := by
  simp only [primTrisEmptyClip]
  have h0 : fill envNone [⟨.TrianglesSingleColor blackQ [], halfRect, fullRect⟩] =
      finishFill (scissorCheck envNone (initFillState envNone)
        ⟨.TrianglesSingleColor blackQ [], halfRect, fullRect⟩) := rfl
  have hne : rect_to_gl_rect envNone
      (⟨.TrianglesSingleColor blackQ [], halfRect, fullRect⟩ : Primitive).scizzor ≠
      (initFillState envNone).current_scizzor := by
    show rect_to_gl_rect envNone halfRect ≠ initScizzor envNone
    rw [rect_eval_half]
    decide
  have hsz : rect_to_gl_rect envNone
      (⟨.TrianglesSingleColor blackQ [], halfRect, fullRect⟩ : Primitive).scizzor =
      ⟨400, 300, 400, 300⟩ := rect_eval_half
  rw [h0, scissorCheck_eq_diff envNone (initFillState envNone) _ hne, hsz]
  exact ⟨rfl, rfl, by decide⟩

/-- Claim C9 (amended): an empty triangle batch (single-color or
multi-color) contributes no vertices and no draw command is emitted for it
— processing it reduces to exactly the scissor handling at the top of the
loop body; when its mapped clip rectangle equals the active one it is a
complete no-op, but — contrary to the claim as stated — when its clip
rectangle differs, the usual range-closing command and `Scizzor` command
are still emitted. -/
theorem fill_empty_triangles_amended :
    (∀ (env : FillEnv) (st : FillState) (p : Primitive) (color : Q4),
      p.kind = .TrianglesSingleColor color [] →
      fillStep env st p = scissorCheck env st p ∧
      (fillStep env st p).vertices = st.vertices ∧
      (rect_to_gl_rect env p.scizzor = st.current_scizzor → fillStep env st p = st)) ∧
    (∀ (env : FillEnv) (st : FillState) (p : Primitive),
      p.kind = .TrianglesMultiColor [] →
      fillStep env st p = scissorCheck env st p ∧
      (fillStep env st p).vertices = st.vertices ∧
      (rect_to_gl_rect env p.scizzor = st.current_scizzor → fillStep env st p = st)) := by
  constructor
  · intro env st p color hk
    obtain ⟨k, sz, rc⟩ := p
    cases hk
    have h1 : fillStep env st ⟨.TrianglesSingleColor color [], sz, rc⟩ =
        scissorCheck env st ⟨.TrianglesSingleColor color [], sz, rc⟩ := rfl
    refine ⟨h1, ?_, ?_⟩
    · rw [h1, scissorCheck_vertices]
    · intro hclip
      rw [h1, scissorCheck_eq_same _ _ _ hclip]
  · intro env st p hk
    obtain ⟨k, sz, rc⟩ := p
    cases hk
    have h1 : fillStep env st ⟨.TrianglesMultiColor [], sz, rc⟩ =
        scissorCheck env st ⟨.TrianglesMultiColor [], sz, rc⟩ := rfl
    refine ⟨h1, ?_, ?_⟩
    · rw [h1, scissorCheck_vertices]
    · intro hclip
      rw [h1, scissorCheck_eq_same _ _ _ hclip]

/-- Witness for the amended C9 theorem: the no-op case at a concrete
input — an empty triangle batch whose clip maps to the active full-frame
rectangle leaves the initial state untouched. -/
theorem fill_empty_triangles_amended_witness :
    fillStep envNone (initFillState envNone) primTrisEmptyNoClip = initFillState envNone :=
  (fill_empty_triangles_amended.1 envNone (initFillState envNone) primTrisEmptyNoClip
    blackQ rfl).2.2
    (by rw [show primTrisEmptyNoClip.scizzor = fullRect from rfl, rect_eval_full]; rfl)

/-- Witness for the amended C3 theorem at a concrete input: the absent-id
image primitive contributes no vertices, and every absent-id `Image`
command in the resulting command list has an empty range. -/
theorem fill_absent_image_amended_witness :
    (fillStep envNone (initFillState envNone) primImage99).vertices = [] ∧
    absentImagesEmptyB envNone (fill envNone [primImage99]).commands = true :=
  ⟨fill_absent_image_amended.1 envNone (initFillState envNone) primImage99 99 none none
    rfl rfl,
   fill_absent_image_amended.2 envNone [primImage99]⟩

/-- Witness for the same-image merge half of the C6 theorem at a concrete
input: an `Image 7` primitive consumed while already in the `Image 7` state
with an unchanged clip rectangle emits no command. -/
theorem fill_no_adjacent_same_image_witness :
    (fillStep envSome7 stImage7 primImage7).commands = stImage7.commands ∧
    (fillStep envSome7 stImage7 primImage7).current_state = stImage7.current_state :=
  (fill_no_adjacent_same_image envSome7 []).2 stImage7 primImage7 7 0 none none rfl rfl
    (by rw [show primImage7.scizzor = fullRect from rfl, rect_eval_full7]; rfl)

/-- Claim C4 counterexample: the claim states every component of the
pixel-space clip rectangle is clamped into `[0, framebuffer_size]`; but the
code never clamps `left` (or `bottom`) from above — `std::cmp::max(left, 0)`
is the identity on an unsigned value.  At framebuffer 800 by 600, scale 1,
a logical rectangle with left edge 800 yields `left = round(800*1 + 400) =
1200 > 800`. -/
theorem rect_to_gl_rect_left_exceeds_bound :
    (rect_to_gl_rect envNone farRect).left = 1200 ∧
    ¬((rect_to_gl_rect envNone farRect).left ≤ envNone.screen_w) := by
  rw [rect_eval_far]
  exact ⟨rfl, by decide⟩

/-- Claim C4 (amended): the pixel-space clip mapping computes the four
components by the claimed rounding formulas, but only `width` and `height`
are clamped into `[0, W]` and `[0, H]`; `left` and `bottom` are clamped
below at 0 (by the saturating float-to-u32 cast) yet NOT clamped above, so
they agree with the fully clamped spec mapping only when they happen to lie
within the bound. -/
theorem rect_to_gl_rect_clamping_amended (env : FillEnv) (rc : Rect) :
    (rect_to_gl_rect env rc).width = (specGlRect env rc).width ∧
    (rect_to_gl_rect env rc).height = (specGlRect env rc).height ∧
    (rect_to_gl_rect env rc).width ≤ env.screen_w ∧
    (rect_to_gl_rect env rc).height ≤ env.screen_h ∧
    ((rect_to_gl_rect env rc).left ≤ env.screen_w →
      (rect_to_gl_rect env rc).left = (specGlRect env rc).left) ∧
    ((rect_to_gl_rect env rc).bottom ≤ env.screen_h →
      (rect_to_gl_rect env rc).bottom = (specGlRect env rc).bottom) := by
  refine ⟨rfl, rfl, Nat.min_le_right _ _, Nat.min_le_right _ _, ?_, ?_⟩
  · intro hle
    simp only [rect_to_gl_rect, specGlRect] at hle ⊢
    rw [Nat.max_zero] at hle ⊢
    exact (Nat.min_eq_left hle).symm
  · intro hle
    simp only [rect_to_gl_rect, specGlRect] at hle ⊢
    rw [Nat.max_zero] at hle ⊢
    exact (Nat.min_eq_left hle).symm

/-- Witness for the amended C4 theorem at a concrete input whose rounded
left edge (400) lies within the framebuffer width (800). -/
theorem rect_to_gl_rect_clamping_amended_witness :
    (rect_to_gl_rect envNone halfRect).left = (specGlRect envNone halfRect).left ∧
    (rect_to_gl_rect envNone halfRect).width ≤ envNone.screen_w :=
  ⟨(rect_to_gl_rect_clamping_amended envNone halfRect).2.2.2.2.1
      (by rw [rect_eval_half]; decide),
   (rect_to_gl_rect_clamping_amended envNone halfRect).2.2.1⟩

theorem srgbComponent_one : srgbComponent 1 = 1 := by
  rw [srgbComponent, if_neg (by norm_num)]
  rw [show ((1:ℝ) + 0.055) / 1.055 = 1 by norm_num, Real.one_rpow]

theorem srgbComponent_zero : srgbComponent 0 = 0 := by
  rw [srgbComponent, if_pos (by norm_num)]
  norm_num

theorem srgbComponent_half_bounds :
    (0.213 : ℝ) ≤ srgbComponent 0.5 ∧ srgbComponent 0.5 ≤ 0.215 := by
  rw [srgbComponent, if_neg (by norm_num)]
  rw [show ((0.5:ℝ) + 0.055) / 1.055 = 111 / 211 by norm_num]
  have hx0 : (0:ℝ) ≤ 111 / 211 := by norm_num
  have h24 : ((111:ℝ) / 211) ^ (2.4 : ℝ) =
      (((111:ℝ) / 211) ^ (12 : ℕ)) ^ ((1:ℝ) / 5) := by
    rw [← Real.rpow_natCast ((111:ℝ) / 211) 12, ← Real.rpow_mul hx0]
    congr 1
    norm_num
  constructor
  · have hlo : ((0.213:ℝ) ^ (5 : ℕ)) ≤ ((111:ℝ) / 211) ^ (12 : ℕ) := by norm_num
    have hm := Real.rpow_le_rpow (by positivity) hlo (by norm_num : (0:ℝ) ≤ 1 / 5)
    have hl2 : (((0.213:ℝ) ^ (5 : ℕ)) : ℝ) ^ ((1:ℝ) / 5) = 0.213 := by
      rw [← Real.rpow_natCast (0.213:ℝ) 5, ← Real.rpow_mul (by norm_num)]
      rw [show ((5:ℕ) : ℝ) * ((1:ℝ) / 5) = 1 by norm_num, Real.rpow_one]
    rw [h24, ← hl2]
    exact hm
  · have hhi : ((111:ℝ) / 211) ^ (12 : ℕ) ≤ ((0.215:ℝ) ^ (5 : ℕ)) := by norm_num
    have hm := Real.rpow_le_rpow (by positivity) hhi (by norm_num : (0:ℝ) ≤ 1 / 5)
    have hh2 : (((0.215:ℝ) ^ (5 : ℕ)) : ℝ) ^ ((1:ℝ) / 5) = 0.215 := by
      rw [← Real.rpow_natCast (0.215:ℝ) 5, ← Real.rpow_mul (by norm_num)]
      rw [show ((5:ℕ) : ℝ) * ((1:ℝ) / 5) = 1 by norm_num, Real.rpow_one]
    rw [h24, ← hh2]
    exact hm

/-- Claim C8: the sRGB-to-linear conversion maps `[1, 0, 0, 1]` exactly to
`[1, 0, 0, 1]` (a saturated channel stays 1, a zero channel stays 0), and a
mid-gray channel value 0.5 converts to approximately 0.214 (within 1e-3),
per the two-piece transfer function with cutoff 0.04045 and power-law
segment `((f + 0.055) / 1.055) ^ 2.4`. -/
theorem gamma_srgb_known_values :
    gamma_srgb_to_linear (1, 0, 0, 1) = (1, 0, 0, 1) ∧
    |(gamma_srgb_to_linear (0.5, 0.5, 0.5, 1)).1 - 0.214| ≤ 1 / 1000 := by
  constructor
  · show (srgbComponent 1, srgbComponent 0, srgbComponent 0, (1:ℝ)) = (1, 0, 0, 1)
    rw [srgbComponent_one, srgbComponent_zero]
  · show |srgbComponent 0.5 - 0.214| ≤ 1 / 1000
    have hb := srgbComponent_half_bounds
    rw [abs_le]
    constructor
    · linarith [hb.1]
    · linarith [hb.2]

/-- Claim C10: `gamma_srgb_to_linear` returns the alpha channel of its
argument unchanged — only the three RGB channels pass through the
transfer function. -/
theorem gamma_srgb_preserves_alpha (c : ℝ × ℝ × ℝ × ℝ) :
    (gamma_srgb_to_linear c).2.2.2 = c.2.2.2 := rfl

end ConrodGlow
